import Mathlib

/-!
A shallow embedding of the feature-engineering pipeline of improve.py
(create_enhanced_stock_data) together with the raw-series normalisation it
performs, and proofs about the claims made on it.

Cell values are modelled exactly as the pandas float semantics that the
script exercises: a rational number, a signed infinity, or NaN.  dropna
removes precisely the rows holding a NaN (infinities are retained, as in
pandas).  The square root inside rolling standard deviations is abstracted
by a function parameter sq, since no claim constrains its value, only that
sq q = 0 exactly when q = 0.
-/

namespace StockRR

/-- A pandas cell: a rational, a signed infinity (true = positive), or NaN. -/
inductive PVal where
  | num (q : ℚ)
  | pinf (pos : Bool)
  | nan
  deriving DecidableEq

def PVal.isNan : PVal → Bool
  | PVal.nan => true
  | _ => false

/-- Elementwise addition with IEEE propagation of NaN and infinities. -/
def padd : PVal → PVal → PVal
  | PVal.nan, _ => PVal.nan
  | _, PVal.nan => PVal.nan
  | PVal.num a, PVal.num b => PVal.num (a + b)
  | PVal.num _, PVal.pinf b => PVal.pinf b
  | PVal.pinf b, PVal.num _ => PVal.pinf b
  | PVal.pinf a, PVal.pinf b => if a = b then PVal.pinf a else PVal.nan

def pneg : PVal → PVal
  | PVal.num a => PVal.num (-a)
  | PVal.pinf b => PVal.pinf (!b)
  | PVal.nan => PVal.nan

def psub (a b : PVal) : PVal := padd a (pneg b)

def pmul : PVal → PVal → PVal
  | PVal.nan, _ => PVal.nan
  | _, PVal.nan => PVal.nan
  | PVal.num a, PVal.num b => PVal.num (a * b)
  | PVal.num a, PVal.pinf b => if a = 0 then PVal.nan else PVal.pinf (b == decide (0 < a))
  | PVal.pinf b, PVal.num a => if a = 0 then PVal.nan else PVal.pinf (b == decide (0 < a))
  | PVal.pinf a, PVal.pinf b => PVal.pinf (a == b)

/-- Division: x / 0 is a signed infinity for x nonzero and NaN for x = 0,
matching the numpy float semantics the script relies on. -/
def pdiv : PVal → PVal → PVal
  | PVal.nan, _ => PVal.nan
  | _, PVal.nan => PVal.nan
  | PVal.num a, PVal.num b =>
      if b = 0 then (if a = 0 then PVal.nan else PVal.pinf (decide (0 < a)))
      else PVal.num (a / b)
  | PVal.num _, PVal.pinf _ => PVal.num 0
  | PVal.pinf a, PVal.num b => if b = 0 then PVal.pinf a else PVal.pinf (a == decide (0 < b))
  | PVal.pinf _, PVal.pinf _ => PVal.nan

/-- Elementwise greater-than of pandas Series: any comparison with NaN is false. -/
def pgt : PVal → PVal → Bool
  | PVal.nan, _ => false
  | _, PVal.nan => false
  | PVal.num a, PVal.num b => decide (b < a)
  | PVal.num _, PVal.pinf b => !b
  | PVal.pinf a, PVal.num _ => a
  | PVal.pinf a, PVal.pinf b => a && !b

instance : Add PVal := ⟨padd⟩
instance : Neg PVal := ⟨pneg⟩
instance : Sub PVal := ⟨psub⟩
instance : Mul PVal := ⟨pmul⟩
instance : Div PVal := ⟨pdiv⟩

def toQ : PVal → ℚ
  | PVal.num q => q
  | _ => 0

/-- The trailing window of width w ending at row i, newest entry first,
exactly the rows a pandas trailing rolling computation reads. -/
def wlist (x : ℕ → ℚ) (i w : ℕ) : List ℚ := (List.range w).map (fun j => x (i - j))

def wsum (x : ℕ → ℚ) (i w : ℕ) : ℚ := (wlist x i w).sum

/-- Series.rolling(window=w).mean(): NaN until w observations exist. -/
def rolling_mean (w : ℕ) (x : ℕ → ℚ) (i : ℕ) : PVal :=
  if i + 1 < w then PVal.nan else PVal.num (wsum x i w / (w : ℚ))

/-- Sample variance (ddof = 1) over the trailing window, as pandas rolling std squares it. -/
def wvar (w : ℕ) (x : ℕ → ℚ) (i : ℕ) : ℚ :=
  (((List.range w).map (fun j => (x (i - j) - wsum x i w / (w : ℚ)) ^ 2)).sum) / ((w : ℚ) - 1)

/-- Series.rolling(window=w).std(): the square root of the sample variance;
the square root function itself is abstracted by sq. -/
def rolling_std (sq : ℚ → ℚ) (w : ℕ) (x : ℕ → ℚ) (i : ℕ) : PVal :=
  if i + 1 < w then PVal.nan else PVal.num (sq (wvar w x i))

/-- Series.rolling(window=w).max() -/
def rolling_max (w : ℕ) (x : ℕ → ℚ) (i : ℕ) : PVal :=
  if i + 1 < w then PVal.nan else PVal.num ((wlist x i w).foldl max (x i))

/-- Series.rolling(window=w).min() -/
def rolling_min (w : ℕ) (x : ℕ → ℚ) (i : ℕ) : PVal :=
  if i + 1 < w then PVal.nan else PVal.num ((wlist x i w).foldl min (x i))

/-- Series.shift(p) on a NaN-free series. -/
def shiftCol (p : ℕ) (x : ℕ → ℚ) (i : ℕ) : PVal :=
  if i < p then PVal.nan else PVal.num (x (i - p))

/-- Series.shift(p) on an already derived (possibly NaN) series. -/
def shiftP (p : ℕ) (x : ℕ → PVal) (i : ℕ) : PVal :=
  if i < p then PVal.nan else x (i - p)

def pwindow (x : ℕ → PVal) (i w : ℕ) : List PVal := (List.range w).map (fun j => x (i - j))

/-- rolling mean over a derived series: NaN while the window is incomplete or
holds a NaN, otherwise the arithmetic mean of the window. -/
def rolling_mean_p (w : ℕ) (x : ℕ → PVal) (i : ℕ) : PVal :=
  if i + 1 < w then PVal.nan
  else if (pwindow x i w).any PVal.isNan then PVal.nan
  else PVal.num (((pwindow x i w).map toQ).sum / (w : ℚ))

def ewmAlpha (span : ℕ) : ℚ := 2 / ((span : ℚ) + 1)

/-- Weighted-sum recursion of Series.ewm(span=s).mean() under the pandas
default adjust=True: the numerator of the weighted mean. -/
def ewm_wsum (a : ℚ) (x : ℕ → ℚ) : ℕ → ℚ
  | 0 => x 0
  | i + 1 => x (i + 1) + (1 - a) * ewm_wsum a x i

/-- Total weight of Series.ewm(span=s).mean() under adjust=True. -/
def ewm_weight (a : ℚ) : ℕ → ℚ
  | 0 => 1
  | i + 1 => 1 + (1 - a) * ewm_weight a i

/-- Series.ewm(span=s).mean() with the pandas defaults (adjust=True, min_periods=0). -/
def ewm_mean (span : ℕ) (x : ℕ → ℚ) (i : ℕ) : ℚ :=
  ewm_wsum (ewmAlpha span) x i / ewm_weight (ewmAlpha span) i

/-- Gregorian civil date (year, month, day) from days since 1970-01-01,
the standard era-based conversion pandas performs for dt.month and friends.
The exact rounding mode of the integer divisions is immaterial to every claim. -/
def civilFromDays (z0 : ℤ) : ℤ × ℤ × ℤ :=
  let z := z0 + 719468
  let era : ℤ := z / 146097
  let doe : ℤ := z - era * 146097
  let yoe : ℤ := (doe - doe / 1460 + doe / 36524 - doe / 146096) / 365
  let y : ℤ := yoe + era * 400
  let doy : ℤ := doe - (365 * yoe + yoe / 4 - yoe / 100)
  let mp : ℤ := (5 * doy + 2) / 153
  let d : ℤ := doy - (153 * mp + 2) / 5 + 1
  let m : ℤ := mp + (if mp < 10 then 3 else -9)
  (if m ≤ 2 then y + 1 else y, m, d)

def yearOf (d : ℤ) : ℤ := (civilFromDays d).1

def monthOf (d : ℤ) : ℤ := (civilFromDays d).2.1

def quarterOf (d : ℤ) : ℤ := (monthOf d - 1) / 3 + 1

/-- Day of week with the pandas convention Monday = 0; day 0 (1970-01-01) was a Thursday. -/
def dowOf (d : ℤ) : ℤ := (d + 3) % 7

/-- The normalised table: dates already parsed (as epoch-day ordinals) and
sorted, base columns as total functions of the row index below n. -/
structure Table where
  n : ℕ
  tdate : ℕ → ℤ
  topen : ℕ → ℚ
  thigh : ℕ → ℚ
  tlow : ℕ → ℚ
  tclose : ℕ → ℚ
  tvolume : ℕ → ℚ
  tbuy : ℕ → ℚ

def dateCol (t : Table) (i : ℕ) : PVal := PVal.num ((t.tdate i : ℚ))

def openCol (t : Table) (i : ℕ) : PVal := PVal.num (t.topen i)

def highCol (t : Table) (i : ℕ) : PVal := PVal.num (t.thigh i)

def lowCol (t : Table) (i : ℕ) : PVal := PVal.num (t.tlow i)

def closeCol (t : Table) (i : ℕ) : PVal := PVal.num (t.tclose i)

def volumeCol (t : Table) (i : ℕ) : PVal := PVal.num (t.tvolume i)

def buyCol (t : Table) (i : ℕ) : PVal := PVal.num (t.tbuy i)

def price_range (t : Table) (i : ℕ) : PVal := PVal.num (t.thigh i) - PVal.num (t.tlow i)

def price_change (t : Table) (i : ℕ) : PVal := PVal.num (t.tclose i) - PVal.num (t.topen i)

def price_change_pct (t : Table) (i : ℕ) : PVal :=
  (PVal.num (t.tclose i) - PVal.num (t.topen i)) / PVal.num (t.topen i) * PVal.num 100

def close_to_open_ratio (t : Table) (i : ℕ) : PVal :=
  PVal.num (t.tclose i) / PVal.num (t.topen i)

def high_to_low_ratio (t : Table) (i : ℕ) : PVal :=
  PVal.num (t.thigh i) / PVal.num (t.tlow i)

def close_to_high_ratio (t : Table) (i : ℕ) : PVal :=
  PVal.num (t.tclose i) / PVal.num (t.thigh i)

def close_to_low_ratio (t : Table) (i : ℕ) : PVal :=
  PVal.num (t.tclose i) / PVal.num (t.tlow i)

def sma (w : ℕ) (t : Table) (i : ℕ) : PVal := rolling_mean w t.tclose i

def volume_sma (w : ℕ) (t : Table) (i : ℕ) : PVal := rolling_mean w t.tvolume i

def close_vs_sma (w : ℕ) (t : Table) (i : ℕ) : PVal := PVal.num (t.tclose i) / sma w t i

def volume_vs_sma (w : ℕ) (t : Table) (i : ℕ) : PVal :=
  PVal.num (t.tvolume i) / volume_sma w t i

def ema_12 (t : Table) (i : ℕ) : PVal := PVal.num (ewm_mean 12 t.tclose i)

def ema_26 (t : Table) (i : ℕ) : PVal := PVal.num (ewm_mean 26 t.tclose i)

/-- The macd series as a rational-valued function (both EMA columns are total). -/
def macdQ (t : Table) (i : ℕ) : ℚ := ewm_mean 12 t.tclose i - ewm_mean 26 t.tclose i

def macd (t : Table) (i : ℕ) : PVal := ema_12 t i - ema_26 t i

def macd_signal (t : Table) (i : ℕ) : PVal := PVal.num (ewm_mean 9 (macdQ t) i)

def macd_histogram (t : Table) (i : ℕ) : PVal := macd t i - macd_signal t i

/-- series.diff(): NaN at row 0. -/
def diffP (x : ℕ → ℚ) (i : ℕ) : PVal :=
  if i = 0 then PVal.nan else PVal.num (x i - x (i - 1))

/-- delta.where(delta > 0, 0): the NaN at row 0 compares false and becomes 0. -/
def gainP (x : ℕ → ℚ) (i : ℕ) : PVal :=
  if pgt (diffP x i) (PVal.num 0) then diffP x i else PVal.num 0

/-- -delta.where(delta < 0, 0) -/
def lossP (x : ℕ → ℚ) (i : ℕ) : PVal :=
  pneg (if pgt (PVal.num 0) (diffP x i) then diffP x i else PVal.num 0)

/-- calculate_rsi from improve.py: rs = gain / loss, rsi = 100 - 100 / (1 + rs). -/
def calculate_rsi (series : ℕ → ℚ) (window : ℕ) (i : ℕ) : PVal :=
  PVal.num 100 -
    PVal.num 100 /
      (PVal.num 1 +
        rolling_mean_p window (gainP series) i / rolling_mean_p window (lossP series) i)

def rsi (t : Table) (i : ℕ) : PVal := calculate_rsi t.tclose 14 i

def bb_middle (t : Table) (i : ℕ) : PVal := rolling_mean 20 t.tclose i

def bb_std (sq : ℚ → ℚ) (t : Table) (i : ℕ) : PVal := rolling_std sq 20 t.tclose i

def bb_upper (sq : ℚ → ℚ) (t : Table) (i : ℕ) : PVal :=
  bb_middle t i + bb_std sq t i * PVal.num 2

def bb_lower (sq : ℚ → ℚ) (t : Table) (i : ℕ) : PVal :=
  bb_middle t i - bb_std sq t i * PVal.num 2

def bb_width (sq : ℚ → ℚ) (t : Table) (i : ℕ) : PVal :=
  bb_upper sq t i - bb_lower sq t i

def bb_position (sq : ℚ → ℚ) (t : Table) (i : ℕ) : PVal :=
  (PVal.num (t.tclose i) - bb_lower sq t i) / (bb_upper sq t i - bb_lower sq t i)

def volatility_5 (sq : ℚ → ℚ) (t : Table) (i : ℕ) : PVal := rolling_std sq 5 t.tclose i

def volatility_20 (sq : ℚ → ℚ) (t : Table) (i : ℕ) : PVal := rolling_std sq 20 t.tclose i

def price_range_pct (t : Table) (i : ℕ) : PVal :=
  (PVal.num (t.thigh i) - PVal.num (t.tlow i)) / PVal.num (t.tclose i) * PVal.num 100

/-- volume.pct_change(): NaN at row 0. -/
def volume_change (t : Table) (i : ℕ) : PVal :=
  if i = 0 then PVal.nan
  else PVal.num (t.tvolume i) / PVal.num (t.tvolume (i - 1)) - PVal.num 1

def volume_price_trend (t : Table) (i : ℕ) : PVal :=
  PVal.num (t.tvolume i) * price_change_pct t i

def close_lag (p : ℕ) (t : Table) (i : ℕ) : PVal := shiftCol p t.tclose i

def volume_lag (p : ℕ) (t : Table) (i : ℕ) : PVal := shiftCol p t.tvolume i

def price_change_lag (p : ℕ) (t : Table) (i : ℕ) : PVal := shiftP p (price_change_pct t) i

def roc (p : ℕ) (t : Table) (i : ℕ) : PVal :=
  (PVal.num (t.tclose i) - shiftCol p t.tclose i) / shiftCol p t.tclose i * PVal.num 100

def recent_high (t : Table) (i : ℕ) : PVal := rolling_max 20 t.thigh i

def recent_low (t : Table) (i : ℕ) : PVal := rolling_min 20 t.tlow i

def distance_to_high (t : Table) (i : ℕ) : PVal :=
  (recent_high t i - PVal.num (t.tclose i)) / PVal.num (t.tclose i) * PVal.num 100

def distance_to_low (t : Table) (i : ℕ) : PVal :=
  (PVal.num (t.tclose i) - recent_low t i) / PVal.num (t.tclose i) * PVal.num 100

def day_of_week (t : Table) (i : ℕ) : PVal := PVal.num ((dowOf (t.tdate i) : ℚ))

def monthCol (t : Table) (i : ℕ) : PVal := PVal.num ((monthOf (t.tdate i) : ℚ))

def quarterCol (t : Table) (i : ℕ) : PVal := PVal.num ((quarterOf (t.tdate i) : ℚ))

def yearCol (t : Table) (i : ℕ) : PVal := PVal.num ((yearOf (t.tdate i) : ℚ))

/-- np.where(close > sma_5, 1, 0): NaN comparisons are false, so the flag is total. -/
def trend_5 (t : Table) (i : ℕ) : PVal :=
  if pgt (PVal.num (t.tclose i)) (sma 5 t i) then PVal.num 1 else PVal.num 0

def trend_20 (t : Table) (i : ℕ) : PVal :=
  if pgt (PVal.num (t.tclose i)) (sma 20 t i) then PVal.num 1 else PVal.num 0

def golden_cross (t : Table) (i : ℕ) : PVal :=
  if pgt (sma 5 t i) (sma 20 t i) then PVal.num 1 else PVal.num 0

/-- close.shift(-1) / close - 1: NaN at the last row of the table. -/
def next_day_return (t : Table) (i : ℕ) : PVal :=
  (if i + 1 < t.n then PVal.num (t.tclose (i + 1)) else PVal.nan) /
    PVal.num (t.tclose i) - PVal.num 1

def buy_signal_strength (t : Table) (i : ℕ) : PVal :=
  PVal.num (t.tbuy i) * price_change_pct t i

/-- Every column of the dataframe at the moment dropna runs, in creation order. -/
def allCols (sq : ℚ → ℚ) (t : Table) : List (ℕ → PVal) :=
  [dateCol t, openCol t, highCol t, lowCol t, closeCol t, volumeCol t, buyCol t,
   price_range t, price_change t, price_change_pct t,
   close_to_open_ratio t, high_to_low_ratio t, close_to_high_ratio t, close_to_low_ratio t,
   sma 5 t, volume_sma 5 t, close_vs_sma 5 t, volume_vs_sma 5 t,
   sma 10 t, volume_sma 10 t, close_vs_sma 10 t, volume_vs_sma 10 t,
   sma 20 t, volume_sma 20 t, close_vs_sma 20 t, volume_vs_sma 20 t,
   sma 50 t, volume_sma 50 t, close_vs_sma 50 t, volume_vs_sma 50 t,
   ema_12 t, ema_26 t, macd t, macd_signal t, macd_histogram t,
   rsi t,
   bb_middle t, bb_upper sq t, bb_lower sq t, bb_width sq t, bb_position sq t,
   volatility_5 sq t, volatility_20 sq t, price_range_pct t,
   volume_change t, volume_price_trend t,
   close_lag 1 t, volume_lag 1 t, price_change_lag 1 t,
   close_lag 2 t, volume_lag 2 t, price_change_lag 2 t,
   close_lag 3 t, volume_lag 3 t, price_change_lag 3 t,
   close_lag 5 t, volume_lag 5 t, price_change_lag 5 t,
   roc 5 t, roc 10 t, roc 20 t,
   recent_high t, recent_low t, distance_to_high t, distance_to_low t,
   day_of_week t, monthCol t, quarterCol t, yearCol t,
   trend_5 t, trend_20 t, golden_cross t,
   next_day_return t, buy_signal_strength t]

/-- df.dropna() keeps row i exactly when no column holds a NaN there. -/
def rowOk (sq : ℚ → ℚ) (t : Table) (i : ℕ) : Bool :=
  (allCols sq t).all (fun c => !(c i).isNan)

def keptRows (sq : ℚ → ℚ) (t : Table) : List ℕ :=
  (List.range t.n).filter (rowOk sq t)

/-- The final table: the surviving rows in order, each listing all columns. -/
def outTable (sq : ℚ → ℚ) (t : Table) : List (List PVal) :=
  (keptRows sq t).map (fun i => (allCols sq t).map (fun c => c i))

/-- One raw input row, with the date already parsed to an epoch ordinal. -/
structure RawRow where
  rdate : ℤ
  ropen : ℚ
  rhigh : ℚ
  rlow : ℚ
  rclose : ℚ
  rvolume : ℚ
  rbuy : ℚ
  deriving DecidableEq

def dateLE (a b : RawRow) : Prop := a.rdate ≤ b.rdate

instance : DecidableRel dateLE := fun a b => Int.decLe a.rdate b.rdate

instance : IsTotal RawRow dateLE := ⟨fun a b => Int.le_total a.rdate b.rdate⟩

instance : IsTrans RawRow dateLE := ⟨fun _ _ _ h1 h2 => le_trans h1 h2⟩

/-- df.sort_values('Date'): a comparison sort by date.  Rows with equal dates
are all retained; their relative order is irrelevant to every claim. -/
def sortByDate (l : List RawRow) : List RawRow := List.insertionSort dateLE l

def r0 : RawRow := ⟨0, 0, 0, 0, 0, 0, 0⟩

/-- reset_index(drop=True): reindex the sorted rows as 0..n-1 column functions. -/
def tableOf (l : List RawRow) : Table where
  n := l.length
  tdate := fun i => (l.getD i r0).rdate
  topen := fun i => (l.getD i r0).ropen
  thigh := fun i => (l.getD i r0).rhigh
  tlow := fun i => (l.getD i r0).rlow
  tclose := fun i => (l.getD i r0).rclose
  tvolume := fun i => (l.getD i r0).rvolume
  tbuy := fun i => (l.getD i r0).rbuy

/-- The raw csv contents: the base rows plus whether the BuySignal column exists. -/
structure RawTable where
  rows : List RawRow
  hasBuySignal : Bool

/-- The only failure the script can raise on a parseable input: the KeyError
on the missing BuySignal column (a schema error in the terms of the spec). -/
inductive PipeError where
  | schemaError
  deriving DecidableEq

/-- create_enhanced_stock_data from improve.py: sort by date, build every
feature column, fail if the BuySignal column is absent, then dropna. -/
def create_enhanced_stock_data (sq : ℚ → ℚ) (rt : RawTable) :
    Except PipeError (List (List PVal)) :=
  if rt.hasBuySignal then Except.ok (outTable sq (tableOf (sortByDate rt.rows)))
  else Except.error PipeError.schemaError

/-- Modelled from the spec: the recursive exponentially-weighted mean the
claim text describes, seeded by the first value, with smoothing factor
alpha = 2 / (span + 1).  This is pandas ewm with adjust=False, stated here
only to compare against the ewm_mean the code computes. -/
def emaRecSpec (span : ℕ) (x : ℕ → ℚ) : ℕ → ℚ
  | 0 => x 0
  | i + 1 => ewmAlpha span * x (i + 1) + (1 - ewmAlpha span) * emaRecSpec span x i

/-- The 20-row close series of the scenario in the spec. -/
def closes20 : List ℚ := [10, 11, 12, 11, 10, 9, 10, 11, 12, 13, 14, 15, 16, 17, 18, 19, 20, 21, 22, 23]

def T20 : Table where
  n := 20
  tdate := fun i => (i : ℤ)
  topen := fun _ => 1
  thigh := fun _ => 1
  tlow := fun _ => 1
  tclose := fun i => closes20.getD i 0
  tvolume := fun _ => 1
  tbuy := fun _ => 1

/-- A 51-row strictly increasing price series with unit volumes: a valid
input on which every window is defined where its width allows. -/
def T51 : Table where
  n := 51
  tdate := fun i => (i : ℤ)
  topen := fun i => (i : ℚ) + 1
  thigh := fun i => (i : ℚ) + 1
  tlow := fun i => (i : ℚ) + 1
  tclose := fun i => (i : ℚ) + 1
  tvolume := fun _ => 1
  tbuy := fun _ => 1

/-- A strictly increasing close series, for the RSI claims. -/
def xinc : ℕ → ℚ := fun i => (i : ℚ) + 1

/-- The two-point series 0, 13 on which the two EMA conventions differ. -/
def xCE : ℕ → ℚ := fun i => if i = 0 then 0 else 13

def TCE : Table where
  n := 2
  tdate := fun i => (i : ℤ)
  topen := xCE
  thigh := xCE
  tlow := xCE
  tclose := xCE
  tvolume := fun _ => 1
  tbuy := fun _ => 1

def ra : RawRow := ⟨5, 1, 2, 1, 2, 3, 1⟩

def rb : RawRow := ⟨5, 2, 3, 2, 3, 4, 0⟩

def rc : RawRow := ⟨7, 1, 2, 1, 2, 3, 1⟩

/-- Two rows sharing the same date. -/
def RTdup : RawTable := ⟨[ra, rb], true⟩

def RT1 : RawTable := ⟨[ra], true⟩

/-- An input lacking the BuySignal column. -/
def RTnb : RawTable := ⟨[ra], false⟩

def RTp1 : RawTable := ⟨[ra, rc], true⟩

def RTp2 : RawTable := ⟨[rc, ra], true⟩

/-! Basic algebra of PVal. -/

@[simp] lemma add_def (a b : PVal) : a + b = padd a b := rfl

@[simp] lemma sub_def (a b : PVal) : a - b = psub a b := rfl

@[simp] lemma mul_def (a b : PVal) : a * b = pmul a b := rfl

@[simp] lemma div_def (a b : PVal) : a / b = pdiv a b := rfl

@[simp] lemma neg_def (a : PVal) : -a = pneg a := rfl

@[simp] lemma isNan_num (q : ℚ) : (PVal.num q).isNan = false := rfl

@[simp] lemma isNan_pinf (b : Bool) : (PVal.pinf b).isNan = false := rfl

@[simp] lemma isNan_nan : PVal.nan.isNan = true := rfl

@[simp] lemma padd_num_num (a b : ℚ) : padd (PVal.num a) (PVal.num b) = PVal.num (a + b) := rfl

@[simp] lemma padd_num_pinf (a : ℚ) (b : Bool) :
    padd (PVal.num a) (PVal.pinf b) = PVal.pinf b := rfl

@[simp] lemma pneg_num (a : ℚ) : pneg (PVal.num a) = PVal.num (-a) := rfl

@[simp] lemma psub_num_num (a b : ℚ) : psub (PVal.num a) (PVal.num b) = PVal.num (a - b) := by
  show PVal.num (a + -b) = PVal.num (a - b)
  rw [← sub_eq_add_neg]

@[simp] lemma pmul_num_num (a b : ℚ) : pmul (PVal.num a) (PVal.num b) = PVal.num (a * b) := rfl

@[simp] lemma padd_nan_left (a : PVal) : padd PVal.nan a = PVal.nan := by cases a <;> rfl

@[simp] lemma padd_nan_right (a : PVal) : padd a PVal.nan = PVal.nan := by cases a <;> rfl

@[simp] lemma pneg_nan : pneg PVal.nan = PVal.nan := rfl

@[simp] lemma psub_nan_left (a : PVal) : psub PVal.nan a = PVal.nan := by cases a <;> rfl

@[simp] lemma psub_nan_right (a : PVal) : psub a PVal.nan = PVal.nan := by
  cases a <;> rfl

@[simp] lemma pmul_nan_left (a : PVal) : pmul PVal.nan a = PVal.nan := by cases a <;> rfl

@[simp] lemma pmul_nan_right (a : PVal) : pmul a PVal.nan = PVal.nan := by cases a <;> rfl

@[simp] lemma pdiv_nan_left (a : PVal) : pdiv PVal.nan a = PVal.nan := by cases a <;> rfl

@[simp] lemma pdiv_nan_right (a : PVal) : pdiv a PVal.nan = PVal.nan := by cases a <;> rfl

@[simp] lemma pdiv_num_pinf (a : ℚ) (b : Bool) :
    pdiv (PVal.num a) (PVal.pinf b) = PVal.num 0 := rfl

lemma pdiv_num_num (a b : ℚ) (h : b ≠ 0) :
    pdiv (PVal.num a) (PVal.num b) = PVal.num (a / b) := by
  simp [pdiv, h]

lemma pdiv_num_zero (a : ℚ) (h : 0 < a) :
    pdiv (PVal.num a) (PVal.num 0) = PVal.pinf true := by
  simp [pdiv, ne_of_gt h, h]

lemma isNan_pdiv_num (a b : ℚ) (h : a ≠ 0 ∨ b ≠ 0) :
    (pdiv (PVal.num a) (PVal.num b)).isNan = false := by
  by_cases hb : b = 0
  · have ha : a ≠ 0 := by rcases h with h | h; exact h; exact absurd hb h
    simp [pdiv, hb, ha]
  · simp [pdiv, hb]

@[simp] lemma pgt_num_num (a b : ℚ) : pgt (PVal.num a) (PVal.num b) = decide (b < a) := rfl

@[simp] lemma pgt_nan_left (a : PVal) : pgt PVal.nan a = false := by cases a <;> rfl

@[simp] lemma pgt_nan_right (a : PVal) : pgt a PVal.nan = false := by cases a <;> rfl

/-! Rolling-window lemmas. -/

lemma rolling_mean_num (w : ℕ) (x : ℕ → ℚ) (i : ℕ) (h : w ≤ i + 1) :
    rolling_mean w x i = PVal.num (wsum x i w / (w : ℚ)) := by
  rw [rolling_mean, if_neg (by omega)]

lemma rolling_mean_nan (w : ℕ) (x : ℕ → ℚ) (i : ℕ) (h : i + 1 < w) :
    rolling_mean w x i = PVal.nan := by
  rw [rolling_mean, if_pos h]

lemma rolling_std_num (sq : ℚ → ℚ) (w : ℕ) (x : ℕ → ℚ) (i : ℕ) (h : w ≤ i + 1) :
    rolling_std sq w x i = PVal.num (sq (wvar w x i)) := by
  rw [rolling_std, if_neg (by omega)]

lemma rolling_max_num (w : ℕ) (x : ℕ → ℚ) (i : ℕ) (h : w ≤ i + 1) :
    rolling_max w x i = PVal.num ((wlist x i w).foldl max (x i)) := by
  rw [rolling_max, if_neg (by omega)]

lemma rolling_min_num (w : ℕ) (x : ℕ → ℚ) (i : ℕ) (h : w ≤ i + 1) :
    rolling_min w x i = PVal.num ((wlist x i w).foldl min (x i)) := by
  rw [rolling_min, if_neg (by omega)]

lemma shiftCol_num (p : ℕ) (x : ℕ → ℚ) (i : ℕ) (h : p ≤ i) :
    shiftCol p x i = PVal.num (x (i - p)) := by
  rw [shiftCol, if_neg (by omega)]

lemma shiftP_of_le (p : ℕ) (x : ℕ → PVal) (i : ℕ) (h : p ≤ i) :
    shiftP p x i = x (i - p) := by
  rw [shiftP, if_neg (by omega)]

/-! Gains, losses and the RSI. -/

lemma gainP_num (x : ℕ → ℚ) (j : ℕ) : ∃ g, gainP x j = PVal.num g ∧ 0 ≤ g := by
  by_cases h0 : j = 0
  · exact ⟨0, by simp [gainP, diffP, h0], le_refl 0⟩
  · by_cases hd : 0 < x j - x (j - 1)
    · exact ⟨x j - x (j - 1), by simp [gainP, diffP, h0, hd], le_of_lt hd⟩
    · exact ⟨0, by simp [gainP, diffP, h0, hd], le_refl 0⟩

lemma lossP_num (x : ℕ → ℚ) (j : ℕ) : ∃ g, lossP x j = PVal.num g ∧ 0 ≤ g := by
  by_cases h0 : j = 0
  · exact ⟨0, by simp [lossP, diffP, h0], le_refl 0⟩
  · by_cases hd : x j - x (j - 1) < 0
    · exact ⟨-(x j - x (j - 1)), by simp [lossP, diffP, h0, hd], by linarith⟩
    · exact ⟨0, by simp [lossP, diffP, h0, hd], le_refl 0⟩

lemma rolling_mean_p_num (w : ℕ) (x : ℕ → PVal) (i : ℕ) (hw : w ≤ i + 1)
    (hx : ∀ j, ∃ g, x j = PVal.num g ∧ 0 ≤ g) :
    ∃ G, rolling_mean_p w x i = PVal.num G ∧ 0 ≤ G := by
  have hnan : (pwindow x i w).any PVal.isNan = false := by
    rw [List.any_eq_false]
    intro v hv
    rw [pwindow, List.mem_map] at hv
    obtain ⟨j, hj, rfl⟩ := hv
    obtain ⟨g, hg, _⟩ := hx (i - j)
    simp [hg]
  refine ⟨((pwindow x i w).map toQ).sum / (w : ℚ), ?_, ?_⟩
  · rw [rolling_mean_p, if_neg (by omega), hnan]
    simp
  · apply div_nonneg
    · apply List.sum_nonneg
      intro q hq
      obtain ⟨v, hv, rfl⟩ := List.mem_map.mp hq
      rw [pwindow, List.mem_map] at hv
      obtain ⟨j, hj, rfl⟩ := hv
      obtain ⟨g, hg, hg0⟩ := hx (i - j)
      simpa [hg, toQ] using hg0
    · exact Nat.cast_nonneg w

lemma rsi_nan_of_lt (x : ℕ → ℚ) (i : ℕ) (h : i < 13) :
    calculate_rsi x 14 i = PVal.nan := by
  have h14 : i + 1 < 14 := by omega
  simp [calculate_rsi, rolling_mean_p, h14]

lemma rsi_not_nan (x : ℕ → ℚ) (i : ℕ) (h13 : 13 ≤ i)
    (hnd : ¬(rolling_mean_p 14 (gainP x) i = PVal.num 0 ∧
             rolling_mean_p 14 (lossP x) i = PVal.num 0)) :
    (calculate_rsi x 14 i).isNan = false := by
  obtain ⟨G, hG, hG0⟩ := rolling_mean_p_num 14 (gainP x) i (by omega) (gainP_num x)
  obtain ⟨L, hL, hL0⟩ := rolling_mean_p_num 14 (lossP x) i (by omega) (lossP_num x)
  rw [calculate_rsi]
  simp only [sub_def, div_def, add_def]
  rw [hG, hL]
  by_cases hLz : L = 0
  · have hGz : G ≠ 0 := fun h => hnd ⟨by rw [hG, h], by rw [hL, hLz]⟩
    have hGpos : 0 < G := lt_of_le_of_ne hG0 (Ne.symm hGz)
    rw [hLz, pdiv_num_zero G hGpos]
    rfl
  · have h1 : (1 : ℚ) + G / L ≠ 0 := by
      have : 0 ≤ G / L := div_nonneg hG0 hL0
      linarith
    rw [pdiv_num_num G L hLz, padd_num_num, pdiv_num_num 100 _ h1, psub_num_num]
    rfl

lemma rsi_eq_nan_of_means_zero (x : ℕ → ℚ) (i : ℕ)
    (hg : rolling_mean_p 14 (gainP x) i = PVal.num 0)
    (hl : rolling_mean_p 14 (lossP x) i = PVal.num 0) :
    calculate_rsi x 14 i = PVal.nan := by
  rw [calculate_rsi]
  simp only [sub_def, div_def, add_def]
  rw [hg, hl]
  simp [pdiv]

lemma rsi_eq_100 (x : ℕ → ℚ) (i : ℕ) (h13 : 13 ≤ i)
    (hl : rolling_mean_p 14 (lossP x) i = PVal.num 0)
    (G : ℚ) (hg : rolling_mean_p 14 (gainP x) i = PVal.num G) (hGz : G ≠ 0) :
    calculate_rsi x 14 i = PVal.num 100 := by
  obtain ⟨G', hG', hG0⟩ := rolling_mean_p_num 14 (gainP x) i (by omega) (gainP_num x)
  rw [hg] at hG'
  have hGG : G = G' := PVal.num.inj hG'
  have hGpos : 0 < G := lt_of_le_of_ne (hGG ▸ hG0) (Ne.symm hGz)
  rw [calculate_rsi]
  simp only [sub_def, div_def, add_def]
  rw [hg, hl, pdiv_num_zero G hGpos]
  simp

/-! Window sums as Finset sums, and the closed form of the adjusted EMA. -/

lemma wsum_eq_sum_range (x : ℕ → ℚ) (i w : ℕ) :
    wsum x i w = ∑ j ∈ Finset.range w, x (i - j) := by
  induction w with
  | zero => simp [wsum, wlist]
  | succ n ih =>
      have ih' : ((List.range n).map (fun j => x (i - j))).sum
          = ∑ j ∈ Finset.range n, x (i - j) := ih
      rw [wsum, wlist, List.range_succ, List.map_append, List.sum_append,
          Finset.sum_range_succ, ih']
      simp

lemma sum_range_window (x : ℕ → ℚ) (i w : ℕ) (h : w ≤ i + 1) :
    ∑ j ∈ Finset.range w, x (i - j) = ∑ k ∈ Finset.Icc (i + 1 - w) i, x k := by
  have himg : Finset.Icc (i + 1 - w) i = (Finset.range w).image (fun j => i - j) := by
    ext k
    simp only [Finset.mem_Icc, Finset.mem_image, Finset.mem_range]
    constructor
    · intro hk
      exact ⟨i - k, by omega, by omega⟩
    · rintro ⟨j, hj, rfl⟩
      omega
  rw [himg, Finset.sum_image (fun a ha b hb hab => by
    simp only [Finset.mem_range] at ha hb
    omega)]

lemma ewm_wsum_closed (a : ℚ) (x : ℕ → ℚ) (i : ℕ) :
    ewm_wsum a x i = ∑ j ∈ Finset.range (i + 1), (1 - a) ^ j * x (i - j) := by
  induction i with
  | zero => simp [ewm_wsum]
  | succ n ih =>
      show x (n + 1) + (1 - a) * ewm_wsum a x n = _
      rw [ih, Finset.sum_range_succ' (fun j => (1 - a) ^ j * x (n + 1 - j)) (n + 1)]
      simp only [pow_succ, pow_zero, one_mul, Nat.sub_zero, Nat.add_sub_add_right]
      rw [Finset.mul_sum, add_comm]
      congr 1
      exact Finset.sum_congr rfl (fun j hj => by ring)

lemma ewm_weight_eq (a : ℚ) (i : ℕ) : ewm_weight a i = ewm_wsum a (fun _ => 1) i := by
  induction i with
  | zero => rfl
  | succ n ih =>
      show 1 + (1 - a) * ewm_weight a n = 1 + (1 - a) * ewm_wsum a (fun _ => 1) n
      rw [ih]

lemma ewm_weight_closed (a : ℚ) (i : ℕ) :
    ewm_weight a i = ∑ j ∈ Finset.range (i + 1), (1 - a) ^ j := by
  rw [ewm_weight_eq, ewm_wsum_closed]
  simp

lemma ewm_mean_closed (span : ℕ) (x : ℕ → ℚ) (i : ℕ) :
    ewm_mean span x i
      = (∑ j ∈ Finset.range (i + 1), (1 - ewmAlpha span) ^ j * x (i - j))
        / (∑ j ∈ Finset.range (i + 1), (1 - ewmAlpha span) ^ j) := by
  rw [ewm_mean, ewm_wsum_closed, ewm_weight_closed]

lemma ewm_mean_zero (span : ℕ) (x : ℕ → ℚ) : ewm_mean span x 0 = x 0 := by
  show ewm_wsum (ewmAlpha span) x 0 / ewm_weight (ewmAlpha span) 0 = x 0
  rw [ewm_wsum, ewm_weight]
  exact div_one (x 0)

/-! Definedness of every column on a row with full history. -/

lemma pcp_eq (t : Table) (i : ℕ) (h : t.topen i ≠ 0) :
    price_change_pct t i = PVal.num ((t.tclose i - t.topen i) / t.topen i * 100) := by
  simp only [price_change_pct, sub_def, div_def, mul_def, psub_num_num]
  rw [pdiv_num_num _ _ h, pmul_num_num]

lemma rowOk_true (sq : ℚ → ℚ) (t : Table)
    (hsq : ∀ q, sq q = 0 ↔ q = 0)
    (hpos : ∀ i < t.n, 0 < t.topen i ∧ 0 < t.thigh i ∧ 0 < t.tlow i ∧
        0 < t.tclose i ∧ 0 < t.tvolume i)
    (hrsi : ∀ i < t.n, 49 ≤ i → i + 2 ≤ t.n →
        ¬(rolling_mean_p 14 (gainP t.tclose) i = PVal.num 0 ∧
          rolling_mean_p 14 (lossP t.tclose) i = PVal.num 0))
    (hvar : ∀ i < t.n, 49 ≤ i → i + 2 ≤ t.n → wvar 20 t.tclose i ≠ 0)
    (i : ℕ) (h49 : 49 ≤ i) (h2 : i + 2 ≤ t.n) : rowOk sq t i = true := by
  have hin : i < t.n := by omega
  obtain ⟨ho, hh, hl, hc, hv⟩ := hpos i hin
  have ho' : t.topen i ≠ 0 := ne_of_gt ho
  have hh' : t.thigh i ≠ 0 := ne_of_gt hh
  have hl' : t.tlow i ≠ 0 := ne_of_gt hl
  have hc' : t.tclose i ≠ 0 := ne_of_gt hc
  have hv' : t.tvolume i ≠ 0 := ne_of_gt hv
  have hop : ∀ p : ℕ, p ≤ i → t.topen (i - p) ≠ 0 := fun p hp =>
    ne_of_gt (hpos (i - p) (by omega)).1
  have hcp : ∀ p : ℕ, p ≤ i → t.tclose (i - p) ≠ 0 := fun p hp =>
    ne_of_gt (hpos (i - p) (by omega)).2.2.2.1
  have hvprev : t.tvolume (i - 1) ≠ 0 := ne_of_gt (hpos (i - 1) (by omega)).2.2.2.2
  have a1 : (dateCol t i).isNan = false := rfl
  have a2 : (openCol t i).isNan = false := rfl
  have a3 : (highCol t i).isNan = false := rfl
  have a4 : (lowCol t i).isNan = false := rfl
  have a5 : (closeCol t i).isNan = false := rfl
  have a6 : (volumeCol t i).isNan = false := rfl
  have a7 : (buyCol t i).isNan = false := rfl
  have a8 : (price_range t i).isNan = false := rfl
  have a9 : (price_change t i).isNan = false := rfl
  have a10 : (price_change_pct t i).isNan = false := by rw [pcp_eq t i ho']; rfl
  have a11 : (close_to_open_ratio t i).isNan = false := by
    simp only [close_to_open_ratio, div_def]
    exact isNan_pdiv_num _ _ (Or.inr ho')
  have a12 : (high_to_low_ratio t i).isNan = false := by
    simp only [high_to_low_ratio, div_def]
    exact isNan_pdiv_num _ _ (Or.inr hl')
  have a13 : (close_to_high_ratio t i).isNan = false := by
    simp only [close_to_high_ratio, div_def]
    exact isNan_pdiv_num _ _ (Or.inr hh')
  have a14 : (close_to_low_ratio t i).isNan = false := by
    simp only [close_to_low_ratio, div_def]
    exact isNan_pdiv_num _ _ (Or.inr hl')
  have asma : ∀ w : ℕ, w ≤ i + 1 → (sma w t i).isNan = false := by
    intro w hw
    simp only [sma]
    rw [rolling_mean_num w t.tclose i hw]
    rfl
  have avsma : ∀ w : ℕ, w ≤ i + 1 → (volume_sma w t i).isNan = false := by
    intro w hw
    simp only [volume_sma]
    rw [rolling_mean_num w t.tvolume i hw]
    rfl
  have acvs : ∀ w : ℕ, w ≤ i + 1 → (close_vs_sma w t i).isNan = false := by
    intro w hw
    simp only [close_vs_sma, sma, div_def]
    rw [rolling_mean_num w t.tclose i hw]
    exact isNan_pdiv_num _ _ (Or.inl hc')
  have avvs : ∀ w : ℕ, w ≤ i + 1 → (volume_vs_sma w t i).isNan = false := by
    intro w hw
    simp only [volume_vs_sma, volume_sma, div_def]
    rw [rolling_mean_num w t.tvolume i hw]
    exact isNan_pdiv_num _ _ (Or.inl hv')
  have a31 : (ema_12 t i).isNan = false := rfl
  have a32 : (ema_26 t i).isNan = false := rfl
  have a33 : (macd t i).isNan = false := rfl
  have a34 : (macd_signal t i).isNan = false := rfl
  have a35 : (macd_histogram t i).isNan = false := rfl
  have a36 : (rsi t i).isNan = false :=
    rsi_not_nan t.tclose i (by omega) (hrsi i hin h49 h2)
  have hm := rolling_mean_num 20 t.tclose i (by omega)
  have hs := rolling_std_num sq 20 t.tclose i (by omega)
  have a37 : (bb_middle t i).isNan = false := by
    simp only [bb_middle]
    rw [hm]
    rfl
  have hub : bb_upper sq t i
      = PVal.num (wsum t.tclose i 20 / ((20 : ℕ) : ℚ) + sq (wvar 20 t.tclose i) * 2) := by
    simp only [bb_upper, bb_middle, bb_std, add_def, mul_def]
    rw [hm, hs, pmul_num_num, padd_num_num]
  have hlb : bb_lower sq t i
      = PVal.num (wsum t.tclose i 20 / ((20 : ℕ) : ℚ) - sq (wvar 20 t.tclose i) * 2) := by
    simp only [bb_lower, bb_middle, bb_std, sub_def, mul_def]
    rw [hm, hs, pmul_num_num, psub_num_num]
  have a38 : (bb_upper sq t i).isNan = false := by rw [hub]; rfl
  have a39 : (bb_lower sq t i).isNan = false := by rw [hlb]; rfl
  have a40 : (bb_width sq t i).isNan = false := by
    simp only [bb_width, sub_def]
    rw [hub, hlb, psub_num_num]
    rfl
  have hsnz : sq (wvar 20 t.tclose i) ≠ 0 := fun h => (hvar i hin h49 h2) ((hsq _).mp h)
  have a41 : (bb_position sq t i).isNan = false := by
    simp only [bb_position, sub_def, div_def]
    rw [hub, hlb]
    simp only [psub_num_num]
    apply isNan_pdiv_num
    right
    have h4 : wsum t.tclose i 20 / ((20 : ℕ) : ℚ) + sq (wvar 20 t.tclose i) * 2
        - (wsum t.tclose i 20 / ((20 : ℕ) : ℚ) - sq (wvar 20 t.tclose i) * 2)
        = sq (wvar 20 t.tclose i) * 4 := by ring
    rw [h4]
    exact mul_ne_zero hsnz (by norm_num)
  have a42 : (volatility_5 sq t i).isNan = false := by
    simp only [volatility_5]
    rw [rolling_std_num sq 5 t.tclose i (by omega)]
    rfl
  have a43 : (volatility_20 sq t i).isNan = false := by
    simp only [volatility_20]
    rw [hs]
    rfl
  have a44 : (price_range_pct t i).isNan = false := by
    simp only [price_range_pct, sub_def, div_def, mul_def, psub_num_num]
    rw [pdiv_num_num _ _ hc', pmul_num_num]
    rfl
  have a45 : (volume_change t i).isNan = false := by
    simp only [volume_change]
    rw [if_neg (show ¬ i = 0 by omega)]
    simp only [sub_def, div_def]
    rw [pdiv_num_num _ _ hvprev, psub_num_num]
    rfl
  have a46 : (volume_price_trend t i).isNan = false := by
    simp only [volume_price_trend, mul_def]
    rw [pcp_eq t i ho', pmul_num_num]
    rfl
  have aclag : ∀ p : ℕ, p ≤ i → (close_lag p t i).isNan = false := by
    intro p hp
    simp only [close_lag]
    rw [shiftCol_num p t.tclose i hp]
    rfl
  have avlag : ∀ p : ℕ, p ≤ i → (volume_lag p t i).isNan = false := by
    intro p hp
    simp only [volume_lag]
    rw [shiftCol_num p t.tvolume i hp]
    rfl
  have aplag : ∀ p : ℕ, p ≤ i → (price_change_lag p t i).isNan = false := by
    intro p hp
    simp only [price_change_lag]
    rw [shiftP_of_le p _ i hp, pcp_eq t (i - p) (hop p hp)]
    rfl
  have aroc : ∀ p : ℕ, p ≤ i → (roc p t i).isNan = false := by
    intro p hp
    simp only [roc, sub_def, div_def, mul_def]
    rw [shiftCol_num p t.tclose i hp]
    simp only [psub_num_num]
    rw [pdiv_num_num _ _ (hcp p hp), pmul_num_num]
    rfl
  have a62 : (recent_high t i).isNan = false := by
    simp only [recent_high]
    rw [rolling_max_num 20 t.thigh i (by omega)]
    rfl
  have a63 : (recent_low t i).isNan = false := by
    simp only [recent_low]
    rw [rolling_min_num 20 t.tlow i (by omega)]
    rfl
  have a64 : (distance_to_high t i).isNan = false := by
    simp only [distance_to_high, recent_high, sub_def, div_def, mul_def]
    rw [rolling_max_num 20 t.thigh i (by omega)]
    simp only [psub_num_num]
    rw [pdiv_num_num _ _ hc', pmul_num_num]
    rfl
  have a65 : (distance_to_low t i).isNan = false := by
    simp only [distance_to_low, recent_low, sub_def, div_def, mul_def]
    rw [rolling_min_num 20 t.tlow i (by omega)]
    simp only [psub_num_num]
    rw [pdiv_num_num _ _ hc', pmul_num_num]
    rfl
  have a66 : (day_of_week t i).isNan = false := rfl
  have a67 : (monthCol t i).isNan = false := rfl
  have a68 : (quarterCol t i).isNan = false := rfl
  have a69 : (yearCol t i).isNan = false := rfl
  have a70 : (trend_5 t i).isNan = false := by
    simp only [trend_5]
    split <;> rfl
  have a71 : (trend_20 t i).isNan = false := by
    simp only [trend_20]
    split <;> rfl
  have a72 : (golden_cross t i).isNan = false := by
    simp only [golden_cross]
    split <;> rfl
  have a73 : (next_day_return t i).isNan = false := by
    simp only [next_day_return, div_def, sub_def]
    rw [if_pos (show i + 1 < t.n by omega), pdiv_num_num _ _ hc', psub_num_num]
    rfl
  have a74 : (buy_signal_strength t i).isNan = false := by
    simp only [buy_signal_strength, mul_def]
    rw [pcp_eq t i ho', pmul_num_num]
    rfl
  simp only [rowOk]
  rw [List.all_eq_true]
  intro f hf
  simp only [allCols, List.mem_cons, List.not_mem_nil, or_false] at hf
  rcases hf with rfl | rfl | rfl | rfl | rfl | rfl | rfl | rfl | rfl | rfl | rfl | rfl | rfl |
    rfl | rfl | rfl | rfl | rfl | rfl | rfl | rfl | rfl | rfl | rfl | rfl | rfl | rfl | rfl |
    rfl | rfl | rfl | rfl | rfl | rfl | rfl | rfl | rfl | rfl | rfl | rfl | rfl | rfl | rfl |
    rfl | rfl | rfl | rfl | rfl | rfl | rfl | rfl | rfl | rfl | rfl | rfl | rfl | rfl | rfl |
    rfl | rfl | rfl | rfl | rfl | rfl | rfl | rfl | rfl | rfl | rfl | rfl | rfl | rfl | rfl |
    rfl <;>
    simp only [Bool.not_eq_true']
  exact a1
  exact a2
  exact a3
  exact a4
  exact a5
  exact a6
  exact a7
  exact a8
  exact a9
  exact a10
  exact a11
  exact a12
  exact a13
  exact a14
  exact asma 5 (by omega)
  exact avsma 5 (by omega)
  exact acvs 5 (by omega)
  exact avvs 5 (by omega)
  exact asma 10 (by omega)
  exact avsma 10 (by omega)
  exact acvs 10 (by omega)
  exact avvs 10 (by omega)
  exact asma 20 (by omega)
  exact avsma 20 (by omega)
  exact acvs 20 (by omega)
  exact avvs 20 (by omega)
  exact asma 50 (by omega)
  exact avsma 50 (by omega)
  exact acvs 50 (by omega)
  exact avvs 50 (by omega)
  exact a31
  exact a32
  exact a33
  exact a34
  exact a35
  exact a36
  exact a37
  exact a38
  exact a39
  exact a40
  exact a41
  exact a42
  exact a43
  exact a44
  exact a45
  exact a46
  exact aclag 1 (by omega)
  exact avlag 1 (by omega)
  exact aplag 1 (by omega)
  exact aclag 2 (by omega)
  exact avlag 2 (by omega)
  exact aplag 2 (by omega)
  exact aclag 3 (by omega)
  exact avlag 3 (by omega)
  exact aplag 3 (by omega)
  exact aclag 5 (by omega)
  exact avlag 5 (by omega)
  exact aplag 5 (by omega)
  exact aroc 5 (by omega)
  exact aroc 10 (by omega)
  exact aroc 20 (by omega)
  exact a62
  exact a63
  exact a64
  exact a65
  exact a66
  exact a67
  exact a68
  exact a69
  exact a70
  exact a71
  exact a72
  exact a73
  exact a74

/-! Rows outside the surviving band hold a NaN. -/

lemma sma50_nan (t : Table) (i : ℕ) (h : i < 49) : sma 50 t i = PVal.nan := by
  simp only [sma]
  exact rolling_mean_nan 50 t.tclose i (by omega)

lemma next_day_return_nan (t : Table) (i : ℕ) (h : t.n ≤ i + 1) :
    next_day_return t i = PVal.nan := by
  simp only [next_day_return, div_def, sub_def]
  rw [if_neg (by omega)]
  simp

lemma mem_allCols_sma50 (sq : ℚ → ℚ) (t : Table) : sma 50 t ∈ allCols sq t := by
  simp [allCols]

lemma mem_allCols_ndr (sq : ℚ → ℚ) (t : Table) : next_day_return t ∈ allCols sq t := by
  simp [allCols]

lemma rowOk_false_of_nan (sq : ℚ → ℚ) (t : Table) (i : ℕ) {c : ℕ → PVal}
    (hc : c ∈ allCols sq t) (h : c i = PVal.nan) : rowOk sq t i = false := by
  cases hok : rowOk sq t i with
  | false => rfl
  | true =>
      exfalso
      have hall : ∀ x ∈ allCols sq t, (!(x i).isNan) = true := List.all_eq_true.mp hok
      have := hall c hc
      rw [h] at this
      simp at this

/-- The rows dropna keeps are exactly 49 .. n - 2:
the first 49 lack the SMA(50) history, the last lacks next_day_return. -/
lemma keptRows_eq (sq : ℚ → ℚ) (t : Table)
    (hsq : ∀ q, sq q = 0 ↔ q = 0)
    (hn : 51 ≤ t.n)
    (hpos : ∀ i < t.n, 0 < t.topen i ∧ 0 < t.thigh i ∧ 0 < t.tlow i ∧
        0 < t.tclose i ∧ 0 < t.tvolume i)
    (hrsi : ∀ i < t.n, 49 ≤ i → i + 2 ≤ t.n →
        ¬(rolling_mean_p 14 (gainP t.tclose) i = PVal.num 0 ∧
          rolling_mean_p 14 (lossP t.tclose) i = PVal.num 0))
    (hvar : ∀ i < t.n, 49 ≤ i → i + 2 ≤ t.n → wvar 20 t.tclose i ≠ 0) :
    keptRows sq t = List.range' 49 (t.n - 50) := by
  have e1 : List.range' 0 49 ++ List.range' 49 (t.n - 50) = List.range' 0 (t.n - 1) := by
    have h := List.range'_append_1 0 49 (t.n - 50)
    rw [Nat.zero_add] at h
    rw [h]
    congr 1
    omega
  have e2 : List.range' 0 (t.n - 1) ++ List.range' (t.n - 1) 1 = List.range' 0 t.n := by
    have h := List.range'_append_1 0 (t.n - 1) 1
    rw [Nat.zero_add] at h
    rw [h]
    congr 1
    omega
  have hsplit : List.range t.n
      = (List.range' 0 49 ++ List.range' 49 (t.n - 50)) ++ List.range' (t.n - 1) 1 := by
    rw [e1, e2, List.range_eq_range']
  simp only [keptRows]
  rw [hsplit, List.filter_append, List.filter_append]
  have f1 : (List.range' 0 49).filter (rowOk sq t) = [] := by
    rw [List.filter_eq_nil_iff]
    intro a ha
    rw [List.mem_range'] at ha
    obtain ⟨j, hj, rfl⟩ := ha
    have hz := rowOk_false_of_nan sq t (0 + 1 * j) (mem_allCols_sma50 sq t)
      (sma50_nan t (0 + 1 * j) (by omega))
    simpa using hz
  have f2 : (List.range' 49 (t.n - 50)).filter (rowOk sq t) = List.range' 49 (t.n - 50) := by
    rw [List.filter_eq_self]
    intro a ha
    rw [List.mem_range'] at ha
    obtain ⟨j, hj, rfl⟩ := ha
    have hz := rowOk_true sq t hsq hpos hrsi hvar (49 + 1 * j) (by omega) (by omega)
    simpa using hz
  have f3 : (List.range' (t.n - 1) 1).filter (rowOk sq t) = [] := by
    rw [List.filter_eq_nil_iff]
    intro a ha
    rw [List.mem_range'] at ha
    obtain ⟨j, hj, rfl⟩ := ha
    have hz := rowOk_false_of_nan sq t (t.n - 1 + 1 * j) (mem_allCols_ndr sq t)
      (next_day_return_nan t (t.n - 1 + 1 * j) (by omega))
    simpa using hz
  rw [f1, f2, f3]
  simp

/-! Normalisation: sorting by date. -/

lemma sortByDate_sorted (l : List RawRow) : List.Sorted dateLE (sortByDate l) :=
  List.sorted_insertionSort dateLE l

lemma sortByDate_perm (l : List RawRow) : (sortByDate l).Perm l :=
  List.perm_insertionSort dateLE l

/-- Sorting by date is a function of the multiset of rows whenever the dates
are pairwise distinct: any two permutations of the same records normalise to
the same table. -/
lemma sortByDate_eq_of_perm (l1 l2 : List RawRow) (hp : l1.Perm l2)
    (hnd : (l1.map RawRow.rdate).Nodup) : sortByDate l1 = sortByDate l2 := by
  haveI : IsAntisymm RawRow (fun a b => a.rdate < b.rdate) :=
    ⟨fun a b h1 h2 => absurd (lt_trans h1 h2) (lt_irrefl _)⟩
  have hperm : (sortByDate l1).Perm (sortByDate l2) :=
    (sortByDate_perm l1).trans (hp.trans (sortByDate_perm l2).symm)
  have hnd1 : ((sortByDate l1).map RawRow.rdate).Nodup :=
    (((sortByDate_perm l1).map RawRow.rdate).nodup_iff).mpr hnd
  have hnd2 : ((sortByDate l2).map RawRow.rdate).Nodup :=
    ((((sortByDate_perm l2).map RawRow.rdate).trans
      ((hp.map RawRow.rdate).symm)).nodup_iff).mpr hnd
  have hs1 : List.Sorted (fun a b : RawRow => a.rdate < b.rdate) (sortByDate l1) := by
    have hne : (sortByDate l1).Pairwise (fun a b => RawRow.rdate a ≠ RawRow.rdate b) := by
      rw [List.Nodup, List.pairwise_map] at hnd1
      exact hnd1
    exact ((sortByDate_sorted l1).and hne).imp (fun h => lt_of_le_of_ne h.1 h.2)
  have hs2 : List.Sorted (fun a b : RawRow => a.rdate < b.rdate) (sortByDate l2) := by
    have hne : (sortByDate l2).Pairwise (fun a b => RawRow.rdate a ≠ RawRow.rdate b) := by
      rw [List.Nodup, List.pairwise_map] at hnd2
      exact hnd2
    exact ((sortByDate_sorted l2).and hne).imp (fun h => lt_of_le_of_ne h.1 h.2)
  exact List.eq_of_perm_of_sorted hperm hs1 hs2

/-! The claims. -/

/-- C1 (amended): for a valid input table (positive prices and volumes, a
square root vanishing only at 0, no degenerate RSI window and no constant
20-row close window among the candidate rows) with n at least 51 rows, dropna
keeps exactly rows 49 .. n - 2, so the output row count is n - 50: the
columns dropna inspects include next_day_return, whose NaN at the last row
drops that row as well. -/
theorem c1_row_count (sq : ℚ → ℚ) (t : Table)
    (hsq : ∀ q, sq q = 0 ↔ q = 0)
    (hn : 51 ≤ t.n)
    (hpos : ∀ i < t.n, 0 < t.topen i ∧ 0 < t.thigh i ∧ 0 < t.tlow i ∧
        0 < t.tclose i ∧ 0 < t.tvolume i)
    (hrsi : ∀ i < t.n, 49 ≤ i → i + 2 ≤ t.n →
        ¬(rolling_mean_p 14 (gainP t.tclose) i = PVal.num 0 ∧
          rolling_mean_p 14 (lossP t.tclose) i = PVal.num 0))
    (hvar : ∀ i < t.n, 49 ≤ i → i + 2 ≤ t.n → wvar 20 t.tclose i ≠ 0) :
    keptRows sq t = List.range' 49 (t.n - 50) ∧ (outTable sq t).length = t.n - 50 := by
  have h := keptRows_eq sq t hsq hn hpos hrsi hvar
  refine ⟨h, ?_⟩
  simp only [outTable]
  rw [h, List.length_map, List.length_range']

theorem c1_row_count_witness : (outTable id T51).length = 1 := by
  have h := c1_row_count id T51 (fun q => Iff.rfl)
    (of_decide_eq_true (by with_unfolding_all rfl))
    (of_decide_eq_true (by with_unfolding_all rfl))
    (of_decide_eq_true (by with_unfolding_all rfl))
    (of_decide_eq_true (by with_unfolding_all rfl))
  exact h.2.trans rfl

/-- C1 counterexample: on the valid 51-row input T51 the pipeline keeps a
single row, not 51 - 49 = 2: dropna also removes the chronologically last
row, whose next_day_return is NaN. -/
theorem c1_counterexample : (outTable id T51).length ≠ 51 - 49 := by
  have h := keptRows_eq id T51 (fun q => Iff.rfl)
    (of_decide_eq_true (by with_unfolding_all rfl))
    (of_decide_eq_true (by with_unfolding_all rfl))
    (of_decide_eq_true (by with_unfolding_all rfl))
    (of_decide_eq_true (by with_unfolding_all rfl))
  simp only [outTable]
  rw [h, List.length_map, List.length_range']
  decide

/-- C2 (amended): the pipeline has no duplicate-date check and defines no
DuplicateDateError: normalisation sorts and silently retains every input
row, duplicated dates included, and the feature stage runs over all of
them. -/
theorem c2_duplicates_retained (rt : RawTable) :
    (sortByDate rt.rows).Perm rt.rows
  ∧ (sortByDate rt.rows).length = rt.rows.length
  ∧ (∀ r ∈ rt.rows, r ∈ sortByDate rt.rows)
  ∧ (tableOf (sortByDate rt.rows)).n = rt.rows.length := by
  refine ⟨sortByDate_perm rt.rows, (sortByDate_perm rt.rows).length_eq, ?_, ?_⟩
  · intro r hr
    exact (sortByDate_perm rt.rows).mem_iff.mpr hr
  · show (sortByDate rt.rows).length = rt.rows.length
    exact (sortByDate_perm rt.rows).length_eq

theorem c2_witness :
    (sortByDate RTdup.rows).length = 2 ∧ ra ∈ sortByDate RTdup.rows := by
  have h := c2_duplicates_retained RTdup
  refine ⟨?_, ?_⟩
  · rw [h.2.1]
    rfl
  · exact h.2.2.1 ra (List.mem_cons_self ra [rb])

/-- C2 counterexample: on a two-row input sharing one date the pipeline
raises nothing and returns a table in which both rows survived
normalisation, refuting the claimed DuplicateDateError. -/
theorem c2_counterexample :
    create_enhanced_stock_data id RTdup
      = Except.ok (outTable id (tableOf (sortByDate RTdup.rows)))
  ∧ (sortByDate RTdup.rows).length = 2
  ∧ ra ∈ sortByDate RTdup.rows ∧ rb ∈ sortByDate RTdup.rows := by
  refine ⟨rfl, by with_unfolding_all rfl, ?_, ?_⟩
  · exact of_decide_eq_true (by with_unfolding_all rfl)
  · exact of_decide_eq_true (by with_unfolding_all rfl)

/-- C3 (amended): the RSI column is NaN exactly on rows 0..12, and is defined
from row 13 on wherever the rolling gain and loss means are not both zero;
the MACD signal column is an exponentially weighted mean of the NaN-free MACD
column and is therefore defined at every row from row 0, not from row 13. -/
theorem c3_first_defined :
    (∀ (x : ℕ → ℚ) (i : ℕ), i < 13 → calculate_rsi x 14 i = PVal.nan)
  ∧ (∀ (x : ℕ → ℚ) (i : ℕ), 13 ≤ i →
      ¬(rolling_mean_p 14 (gainP x) i = PVal.num 0 ∧
        rolling_mean_p 14 (lossP x) i = PVal.num 0) →
      (calculate_rsi x 14 i).isNan = false)
  ∧ (∀ (t : Table) (i : ℕ), (macd_signal t i).isNan = false) :=
  ⟨rsi_nan_of_lt, rsi_not_nan, fun _ _ => rfl⟩

theorem c3_witness :
    calculate_rsi xinc 14 12 = PVal.nan ∧ (calculate_rsi xinc 14 13).isNan = false := by
  refine ⟨c3_first_defined.1 xinc 12 (by omega), c3_first_defined.2.1 xinc 13 (by omega) ?_⟩
  exact of_decide_eq_true (by with_unfolding_all rfl)

/-- C3 counterexample: on the valid input T51 the MACD signal is the defined
value 0 already at row 0, contradicting undefined-through-row-12. -/
theorem c3_counterexample :
    macd_signal T51 0 = PVal.num 0 ∧ (macd_signal T51 0).isNan = false := by
  constructor
  · with_unfolding_all rfl
  · rfl

/-- C4 (amended): at a row where the rolling loss mean is zero, the RSI is
NaN only when the rolling gain mean is also zero; when the gain mean is
nonzero, rs is positive infinity and the RSI evaluates to the defined value
100 rather than propagating as undefined. -/
theorem c4_rsi_zero_loss (x : ℕ → ℚ) (i : ℕ) (h13 : 13 ≤ i)
    (hl : rolling_mean_p 14 (lossP x) i = PVal.num 0) :
    (rolling_mean_p 14 (gainP x) i = PVal.num 0 → calculate_rsi x 14 i = PVal.nan)
  ∧ (∀ G : ℚ, rolling_mean_p 14 (gainP x) i = PVal.num G → G ≠ 0 →
      calculate_rsi x 14 i = PVal.num 100) :=
  ⟨fun hg => rsi_eq_nan_of_means_zero x i hg hl,
   fun G hg hGz => rsi_eq_100 x i h13 hl G hg hGz⟩

theorem c4_witness : calculate_rsi xinc 14 13 = PVal.num 100 := by
  have h := c4_rsi_zero_loss xinc 13 (by omega)
    (of_decide_eq_true (by with_unfolding_all rfl))
  exact h.2 (13 / 14) (of_decide_eq_true (by with_unfolding_all rfl)) (by norm_num)

/-- C4 counterexample: on the strictly increasing close series the loss mean
at row 13 is 0 while the gain mean is the defined value 13/14, yet the RSI
there is the defined special value 100, not undefined. -/
theorem c4_counterexample :
    rolling_mean_p 14 (lossP xinc) 13 = PVal.num 0
  ∧ rolling_mean_p 14 (gainP xinc) 13 = PVal.num (13 / 14)
  ∧ calculate_rsi xinc 14 13 = PVal.num 100 := by
  refine ⟨?_, ?_, ?_⟩ <;> with_unfolding_all rfl

/-- C5 (amended): the trend flag columns are total, never undefined: where the
referenced SMA is still NaN the numpy comparison is false and the flag is the
defined value 0; where the SMA is defined, the flag is 1 exactly when the
comparison of the claim holds and 0 otherwise. -/
theorem c5_trend_flags (t : Table) (i : ℕ) :
    (i < 4 → trend_5 t i = PVal.num 0)
  ∧ (4 ≤ i → trend_5 t i
      = if wsum t.tclose i 5 / ((5 : ℕ) : ℚ) < t.tclose i then PVal.num 1 else PVal.num 0)
  ∧ (i < 19 → trend_20 t i = PVal.num 0 ∧ golden_cross t i = PVal.num 0)
  ∧ (19 ≤ i → (trend_20 t i
      = if wsum t.tclose i 20 / ((20 : ℕ) : ℚ) < t.tclose i then PVal.num 1 else PVal.num 0)
    ∧ (golden_cross t i
      = if wsum t.tclose i 20 / ((20 : ℕ) : ℚ) < wsum t.tclose i 5 / ((5 : ℕ) : ℚ)
        then PVal.num 1 else PVal.num 0)) := by
  refine ⟨?_, ?_, ?_, ?_⟩
  · intro h
    have e : rolling_mean 5 t.tclose i = PVal.nan := rolling_mean_nan 5 t.tclose i (by omega)
    simp [trend_5, sma, e]
  · intro h
    have e : rolling_mean 5 t.tclose i = PVal.num (wsum t.tclose i 5 / ((5 : ℕ) : ℚ)) :=
      rolling_mean_num 5 t.tclose i (by omega)
    simp only [trend_5, sma, e, pgt_num_num]
    by_cases hlt : wsum t.tclose i 5 / ((5 : ℕ) : ℚ) < t.tclose i <;> simp [hlt]
  · intro h
    have e : rolling_mean 20 t.tclose i = PVal.nan := rolling_mean_nan 20 t.tclose i (by omega)
    constructor
    · simp [trend_20, sma, e]
    · simp [golden_cross, sma, e]
  · intro h
    have e20 : rolling_mean 20 t.tclose i = PVal.num (wsum t.tclose i 20 / ((20 : ℕ) : ℚ)) :=
      rolling_mean_num 20 t.tclose i (by omega)
    have e5 : rolling_mean 5 t.tclose i = PVal.num (wsum t.tclose i 5 / ((5 : ℕ) : ℚ)) :=
      rolling_mean_num 5 t.tclose i (by omega)
    constructor
    · simp only [trend_20, sma, e20, pgt_num_num]
      by_cases hlt : wsum t.tclose i 20 / ((20 : ℕ) : ℚ) < t.tclose i <;> simp [hlt]
    · simp only [golden_cross, sma, e20, e5, pgt_num_num]
      by_cases hlt : wsum t.tclose i 20 / ((20 : ℕ) : ℚ) < wsum t.tclose i 5 / ((5 : ℕ) : ℚ) <;>
        simp [hlt]

theorem c5_witness :
    trend_5 T51 0 = PVal.num 0 ∧ trend_5 T51 19 = PVal.num 1 := by
  constructor
  · exact (c5_trend_flags T51 0).1 (by omega)
  · have h := (c5_trend_flags T51 19).2.1 (by omega)
    rw [h, if_pos (show wsum T51.tclose 19 5 / ((5 : ℕ) : ℚ) < T51.tclose 19 from
      of_decide_eq_true (by with_unfolding_all rfl))]

/-- C5 counterexample: at row 0 of the valid input T51 the SMA(5) is NaN yet
trend_5 is the defined value 0: the flag defaults to 0 instead of being
undefined. -/
theorem c5_counterexample :
    sma 5 T51 0 = PVal.nan ∧ trend_5 T51 0 = PVal.num 0 := by
  constructor
  · rfl
  · with_unfolding_all rfl

/-- C6 (amended): the EMA columns are the pandas adjust=True exponentially
weighted means with alpha = 2/(span+1): at row i the value is the
(1-alpha)-power weighted average of closes 0..i; the column is defined from
row 0 and seeded by the first close, but it is not the plain recursion
EMA_i = alpha * close_i + (1 - alpha) * EMA_(i-1) the claim states. -/
theorem c6_ema_adjust (t : Table) (i : ℕ) :
    (ema_12 t i = PVal.num
      ((∑ j ∈ Finset.range (i + 1), (1 - ewmAlpha 12) ^ j * t.tclose (i - j))
        / (∑ j ∈ Finset.range (i + 1), (1 - ewmAlpha 12) ^ j)))
  ∧ (ema_26 t i = PVal.num
      ((∑ j ∈ Finset.range (i + 1), (1 - ewmAlpha 26) ^ j * t.tclose (i - j))
        / (∑ j ∈ Finset.range (i + 1), (1 - ewmAlpha 26) ^ j)))
  ∧ ema_12 t 0 = PVal.num (t.tclose 0)
  ∧ ema_26 t 0 = PVal.num (t.tclose 0) := by
  refine ⟨?_, ?_, ?_, ?_⟩
  · simp only [ema_12]
    rw [ewm_mean_closed]
  · simp only [ema_26]
    rw [ewm_mean_closed]
  · simp only [ema_12]
    rw [ewm_mean_zero]
  · simp only [ema_26]
    rw [ewm_mean_zero]

/-- C6 counterexample: on the close series 0, 13 the EMA(12) column at row 1
is 169/24 while the recursive EMA of the claim gives 2, so the column does
not satisfy the claimed seeded recursion. -/
theorem c6_counterexample :
    ema_12 TCE 1 ≠ PVal.num (emaRecSpec 12 TCE.tclose 1)
  ∧ ema_12 TCE 1 = PVal.num (169 / 24)
  ∧ emaRecSpec 12 TCE.tclose 1 = 2 := by
  refine ⟨?_, ?_, ?_⟩
  · exact of_decide_eq_true (by with_unfolding_all rfl)
  · with_unfolding_all rfl
  · with_unfolding_all rfl

/-- C7: for each configured window, SMA(w) at row i is the arithmetic mean of
close over rows i-w+1 .. i and NaN for i < w-1; in the 20-row scenario of the
spec, SMA(5) at the last row is 21 and trend_5 there is 1. -/
theorem c7_sma :
    (∀ w : ℕ, w ∈ ([5, 10, 20, 50] : List ℕ) → ∀ (t : Table) (i : ℕ),
        (i + 1 < w → sma w t i = PVal.nan)
      ∧ (w ≤ i + 1 → sma w t i
          = PVal.num ((∑ k ∈ Finset.Icc (i + 1 - w) i, t.tclose k) / (w : ℚ))))
  ∧ sma 5 T20 19 = PVal.num 21
  ∧ trend_5 T20 19 = PVal.num 1 := by
  refine ⟨?_, by with_unfolding_all rfl, by with_unfolding_all rfl⟩
  intro w _ t i
  constructor
  · intro h
    simp only [sma]
    exact rolling_mean_nan w t.tclose i h
  · intro h
    simp only [sma]
    rw [rolling_mean_num w t.tclose i h, wsum_eq_sum_range, sum_range_window t.tclose i w h]

theorem c7_witness :
    sma 5 T20 19 = PVal.num ((∑ k ∈ Finset.Icc 15 19, T20.tclose k) / ((5 : ℕ) : ℚ)) := by
  have h := (c7_sma.1 5 (by decide) T20 19).2 (by omega)
  simpa using h

/-- C8: with pairwise distinct dates, feeding the same records in any two
input orders yields identical pipeline output, because normalisation sorts by
date before any feature is computed. -/
theorem c8_permutation (sq : ℚ → ℚ) (r1 r2 : RawTable)
    (hrows : r1.rows.Perm r2.rows) (hbuy : r1.hasBuySignal = r2.hasBuySignal)
    (hnd : (r1.rows.map RawRow.rdate).Nodup) :
    create_enhanced_stock_data sq r1 = create_enhanced_stock_data sq r2 := by
  simp only [create_enhanced_stock_data]
  rw [sortByDate_eq_of_perm r1.rows r2.rows hrows hnd, hbuy]

theorem c8_witness :
    create_enhanced_stock_data id RTp1 = create_enhanced_stock_data id RTp2 :=
  c8_permutation id RTp1 RTp2 (List.Perm.swap rc ra []) rfl
    (of_decide_eq_true (by with_unfolding_all rfl))

/-- C9: with the BuySignal column absent the pipeline fails with the schema
error rather than defaulting buy_signal_strength to 0; with the column
present the feature is the row-wise product of the label and
price_change_pct. -/
theorem c9_buy_signal :
    (∀ (sq : ℚ → ℚ) (rt : RawTable), rt.hasBuySignal = false →
        create_enhanced_stock_data sq rt = Except.error PipeError.schemaError)
  ∧ (∀ (t : Table) (i : ℕ), t.topen i ≠ 0 →
        buy_signal_strength t i
          = PVal.num (t.tbuy i * ((t.tclose i - t.topen i) / t.topen i * 100))) := by
  constructor
  · intro sq rt h
    simp [create_enhanced_stock_data, h]
  · intro t i h
    simp only [buy_signal_strength, mul_def]
    rw [pcp_eq t i h, pmul_num_num]

theorem c9_witness :
    create_enhanced_stock_data id RTnb = Except.error PipeError.schemaError
  ∧ buy_signal_strength T51 0 = PVal.num 0 := by
  constructor
  · exact c9_buy_signal.1 id RTnb rfl
  · have h := c9_buy_signal.2 T51 0 (of_decide_eq_true (by with_unfolding_all rfl))
    rw [h]
    with_unfolding_all rfl

/-- C10: whenever the pipeline succeeds, the chronologically last row of the
sorted input is absent from the output: its next_day_return is NaN, dropna
removes every row holding a NaN in any column, next_day_return included, and
consequently every column of every retained row is NaN-free. -/
theorem c10_last_row (sq : ℚ → ℚ) (rt : RawTable) (out : List (List PVal))
    (h : create_enhanced_stock_data sq rt = Except.ok out) :
    next_day_return (tableOf (sortByDate rt.rows))
        ((tableOf (sortByDate rt.rows)).n - 1) = PVal.nan
  ∧ ((tableOf (sortByDate rt.rows)).n - 1) ∉ keptRows sq (tableOf (sortByDate rt.rows))
  ∧ out = outTable sq (tableOf (sortByDate rt.rows))
  ∧ ∀ i ∈ keptRows sq (tableOf (sortByDate rt.rows)),
      ∀ c ∈ allCols sq (tableOf (sortByDate rt.rows)), (c i).isNan = false := by
  set t := tableOf (sortByDate rt.rows) with ht
  have hndr : next_day_return t (t.n - 1) = PVal.nan :=
    next_day_return_nan t (t.n - 1) (by omega)
  have hnot : (t.n - 1) ∉ keptRows sq t := by
    intro hmem
    simp only [keptRows, List.mem_filter] at hmem
    have hfalse := rowOk_false_of_nan sq t (t.n - 1) (mem_allCols_ndr sq t) hndr
    rw [hfalse] at hmem
    exact Bool.false_ne_true hmem.2
  have hout : out = outTable sq t := by
    cases hb : rt.hasBuySignal with
    | true =>
        simp only [create_enhanced_stock_data, hb, if_true] at h
        exact (Except.ok.inj h).symm
    | false => simp [create_enhanced_stock_data, hb] at h
  refine ⟨hndr, hnot, hout, ?_⟩
  intro i hi c hc
  simp only [keptRows, List.mem_filter] at hi
  have hall : ∀ x ∈ allCols sq t, (!(x i).isNan) = true := List.all_eq_true.mp hi.2
  simpa using hall c hc

theorem c10_witness :
    next_day_return (tableOf (sortByDate RT1.rows))
        ((tableOf (sortByDate RT1.rows)).n - 1) = PVal.nan
  ∧ ((tableOf (sortByDate RT1.rows)).n - 1)
      ∉ keptRows id (tableOf (sortByDate RT1.rows)) := by
  have h := c10_last_row id RT1 (outTable id (tableOf (sortByDate RT1.rows))) rfl
  exact ⟨h.1, h.2.1⟩

end StockRR
